import Mathlib

/-!
Shallow embedding of the firefily-snek game core (src/main.go).

Go machine integers are modelled as `Int` (the game never overflows 64-bit
ints: coordinates stay within a few hundred, scores within the int range).
float32 quantities (direction angles, trigonometric projections, distances)
are modelled as `ℚ`; the external float library functions `tinymath.Cos`,
`tinymath.Sin` and `tinymath.Hypot`, the pad input reader
`firefly.ReadPad`/`Pad.Azimuth().Radians()` and the random generator
`firefly.GetRandom` are external collaborators of the repository and are
modelled as parameters gathered in an `Env` record; `GetRandom` is a stream
indexed by the number of calls made so far, the call counter being threaded
explicitly through the state-mutating functions.  Go `int(f)` conversion of
a float truncates toward zero, modelled by `truncQ`.  The unbounded
apple-relocation retry loop of `Snake.TryEat` is modelled with explicit
fuel, returning `Option` (`none` on fuel exhaustion).
-/

namespace Snek

/-- Screen size of the firefly console (firefly.Width). -/
def Width : Int := 240
/-- Screen size of the firefly console (firefly.Height). -/
def Height : Int := 160

-- Gameplay constants from src/main.go.
def period : Int := 10
def snakeWidth : Int := 7
def segmentLen : Int := 14
def maxDirDiff : ℚ := 0.1
def HungerPeriod : Int := 6 * 60
def IFrames : Int := 60
def appleRadius : Int := 5

/-- The float32 constant tinymath.Pi, as a rational approximation of π. -/
def Pi : ℚ := 3.1415927
/-- The float32 constant tinymath.Tau, as a rational approximation of 2π. -/
def Tau : ℚ := 6.2831855

/-- Go int(f) conversion of a float truncates toward zero. -/
def truncQ (q : ℚ) : Int := if 0 ≤ q then ⌊q⌋ else ⌈q⌉

/-- firefly.Point: a pair of machine-int screen coordinates. -/
structure Point where
  X : Int
  Y : Int
deriving DecidableEq, Repr

instance : Inhabited Point := ⟨⟨0, 0⟩⟩

/-- Snake behaviour states (Go type State uint8). -/
inductive State where
  | Moving
  | Eating
  | Growing
deriving DecidableEq, Repr

/-- External collaborators of the core: pad input, randomness and the
float32 math library.  `input peer` is `none` when the pad is not pressed,
`some none` when it is pressed but the azimuth is NaN (degenerate input),
and `some (some t)` for a finite azimuth `t` in radians.  `random` is the
GetRandom stream indexed by call count. -/
structure Env where
  input : Nat → Option (Option ℚ)
  random : Nat → Nat
  cos : ℚ → ℚ
  sin : ℚ → ℚ
  hypot : ℚ → ℚ → ℚ

/-- normalizeX from src/main.go: wrap an x coordinate into [0, Width). -/
def normalizeX (x : Int) : Int :=
  if x ≥ Width then x - Width else if x < 0 then x + Width else x

/-- normalizeY from src/main.go: wrap a y coordinate into [0, Height). -/
def normalizeY (y : Int) : Int :=
  if y ≥ Height then y - Height else if y < 0 then y + Height else y

/-- denormalizeX from src/main.go: unwrap two x coordinates across the seam. -/
def denormalizeX (start fin : Int) : Int × Int :=
  if start - fin > 30 then (start, fin + Width)
  else if fin - start > 30 then (start + Width, fin)
  else (start, fin)

/-- denormalizeY from src/main.go: unwrap two y coordinates across the seam. -/
def denormalizeY (start fin : Int) : Int × Int :=
  if start - fin > 30 then (start, fin + Height)
  else if fin - start > 30 then (start + Height, fin)
  else (start, fin)

/-- Bounding box for collision detection (type BBox in src/main.go). -/
structure BBox where
  left : Point
  right : Point
deriving DecidableEq, Repr

/-- NewBBox from src/main.go: componentwise min/max corners expanded by the
margin on both axes (Point.ComponentMin / Point.ComponentMax are the
componentwise min and max of the firefly library). -/
def NewBBox (start fin : Point) (margin : Int) : BBox :=
  { left := ⟨min start.X fin.X - margin, min start.Y fin.Y - margin⟩
    right := ⟨max start.X fin.X + margin, max start.Y fin.Y + margin⟩ }

/-- BBox.Contains from src/main.go: inclusive containment test. -/
def BBox.Contains (b : BBox) (p : Point) : Bool :=
  !(p.X < b.left.X || p.X > b.right.X || p.Y < b.left.Y || p.Y > b.right.Y)

/-- The snake (type Snake in src/main.go).  The linked Segment chain is
modelled as the list of segment positions from head to tail. -/
structure Snake where
  peer : Nat
  segments : List Point
  mouth : Point
  eye : Point
  blinkCounter : Int
  blinkMaxTime : Int
  dir : ℚ
  state : State
deriving DecidableEq, Repr

/-- Position held by the head Segment node (s.Head.Head in Go). -/
def Snake.headPos (s : Snake) : Point := s.segments.headI

/-- NewSnake from src/main.go: a fresh two-segment snake offset by peer
index; the remaining fields take Go zero values. -/
def NewSnake (peer : Nat) : Snake :=
  let shift : Int := 10 + snakeWidth + (peer : Int) * 20
  { peer := peer
    segments := [⟨segmentLen * 2, shift⟩, ⟨segmentLen, shift⟩]
    mouth := ⟨0, 0⟩
    eye := ⟨0, 0⟩
    blinkCounter := 0
    blinkMaxTime := 0
    dir := 0
    state := State.Moving }

/-- The box the collision loop builds for one qualifying segment pair:
endpoints are denormalized, then expanded by snakeWidth/2. -/
def segBox (a b : Point) : BBox :=
  let px := denormalizeX a.X b.X
  let py := denormalizeY a.Y b.Y
  NewBBox ⟨px.1, py.1⟩ ⟨px.2, py.2⟩ (snakeWidth / 2)

/-- The loop body of Snake.Collides: walk the chain, and for every node
that still has a successor test the box spanned by the node and its
successor, returning true on first match. -/
def collidesAux (p : Point) : List Point → Bool
  | a :: b :: rest => (segBox a b).Contains p || collidesAux p (b :: rest)
  | _ => false

/-- Snake.Collides from src/main.go: the walk starts at s.Head.Tail, so the
head-to-neck segment is skipped. -/
def Snake.Collides (s : Snake) (p : Point) : Bool :=
  collidesAux p (s.segments.drop 1)

/-- Snake.setDir from src/main.go: smooth the heading toward the target
azimuth.  `none` is the NaN azimuth (tinymath.IsNaN(dirDiff) branch). -/
def Snake.setDir (s : Snake) (target : Option ℚ) : Snake :=
  match target with
  | none => s
  | some t =>
    let dirDiff := t - s.dir
    let dirDiff := if Pi < dirDiff then -maxDirDiff
                   else if dirDiff < -Pi then maxDirDiff
                   else dirDiff
    let d := if maxDirDiff < dirDiff then s.dir + maxDirDiff
             else if dirDiff < -maxDirDiff then s.dir - maxDirDiff
             else s.dir + dirDiff
    let d := if d < 0 then d + Tau else d
    let d := if Tau < d then d - Tau else d
    { s with dir := d }

/-- The new head point Snake.shift projects from the current head. -/
def projHead (env : Env) (s : Snake) : Point :=
  let shiftX := env.cos s.dir * (segmentLen : ℚ)
  let shiftY := env.sin s.dir * (segmentLen : ℚ)
  ⟨normalizeX (s.headPos.X + truncQ shiftX),
   normalizeY (s.headPos.Y - truncQ shiftY)⟩

/-- The in-place propagation loop of Snake.shift: every node takes the
value the running `head` variable held when the loop reached it. -/
def shiftChain (h : Point) : List Point → List Point
  | [] => []
  | p :: rest => h :: shiftChain p rest

/-- Snake.shift from src/main.go. -/
def Snake.shift (env : Env) (s : Snake) : Snake :=
  let head := projHead env s
  if s.state = State.Growing then
    { s with segments := head :: s.segments, state := State.Moving }
  else
    { s with state := if s.state = State.Eating then State.Growing else s.state
             segments := shiftChain head s.segments }

/-- Snake.updateMouth from src/main.go: interpolate the mouth ahead of the
neck by segmentLen * frame / period along the heading. -/
def Snake.updateMouth (env : Env) (frame : Int) (s : Snake) : Snake :=
  let neck := s.headPos
  let headLen : ℚ := (segmentLen : ℚ) * (frame : ℚ) / (period : ℚ)
  let shiftX := env.cos s.dir * headLen
  let shiftY := env.sin s.dir * headLen
  { s with mouth := ⟨normalizeX (neck.X + truncQ shiftX),
                     normalizeY (neck.Y - truncQ shiftY)⟩ }

/-- Snake.updateEye from src/main.go: place the eye 3 units from the mouth
toward the apple and advance the blink counters.  `c` is the GetRandom call
counter. -/
def Snake.updateEye (env : Env) (c : Nat) (applePos : Point) (s : Snake) :
    Snake × Nat :=
  let lookX : ℚ := ((applePos.X - s.mouth.X : Int) : ℚ)
  let lookY : ℚ := ((applePos.Y - s.mouth.Y : Int) : ℚ)
  let lookLen := env.hypot lookX lookY
  let dX := lookX * 3 / lookLen
  let dY := lookY * 3 / lookLen
  let eye : Point := ⟨s.mouth.X + truncQ dX, s.mouth.Y + truncQ dY⟩
  let blinkCounter := s.blinkCounter + ((env.random c % 5 : Nat) : Int)
  if s.blinkMaxTime < blinkCounter then
    ({ s with eye := eye, blinkCounter := 0
              blinkMaxTime := ((100 + env.random (c + 1) % 100 : Nat) : Int) },
     c + 2)
  else
    ({ s with eye := eye, blinkCounter := blinkCounter }, c + 1)

/-- Apple (type Apple in src/main.go). -/
structure Apple where
  pos : Point
deriving DecidableEq, Repr

/-- Apple.Move from src/main.go: a fresh uniformly random position with an
appleRadius margin from every edge.  `c` is the GetRandom call counter. -/
def Apple.Move (env : Env) (c : Nat) : Apple × Nat :=
  let x := (env.random c % (Width - appleRadius * 2).toNat : Nat)
  let y := (env.random (c + 1) % (Height - appleRadius * 2).toNat : Nat)
  (⟨⟨(x : Int) + appleRadius, (y : Int) + appleRadius⟩⟩, c + 2)

/-- Snake.Update from src/main.go: per-frame snake logic — read the pad,
smooth the direction, shift the chain once per movement cycle, and update
mouth and eye. -/
def Snake.Update (env : Env) (c : Nat) (frame : Int) (apple : Apple)
    (s : Snake) : Snake × Nat :=
  let frameMod := frame % period
  let s := match env.input s.peer with
           | some t => s.setDir t
           | none => s
  let s := if frameMod = 0 then s.shift env else s
  let s := s.updateMouth env frameMod
  s.updateEye env c apple.pos

/-- Score (type Score in src/main.go). -/
structure Score where
  val : Int
  iframes : Int
  hunger : Int
deriving DecidableEq, Repr

/-- NewScore from src/main.go: full hunger and invulnerability windows,
zero value. -/
def NewScore : Score := { val := 0, iframes := IFrames, hunger := HungerPeriod }

/-- Score.Inc from src/main.go. -/
def Score.Inc (s : Score) : Score :=
  { s with hunger := HungerPeriod, val := s.val + 1 }

/-- Score.Dec from src/main.go: a no-op inside the invulnerability window;
otherwise restart the window and apply the val/5 + 1 penalty when the
value is positive. -/
def Score.Dec (s : Score) : Score :=
  if s.iframes > 0 then s
  else
    { s with iframes := IFrames
             val := if s.val > 0 then s.val - (s.val / 5 + 1) else s.val }

/-- Score.Update from src/main.go: decrement the invulnerability window
(floor 0), tick or reset the hunger timer (penalizing at zero), and
penalize when the snake's mouth collides with its own body. -/
def Score.Update (sc : Score) (snake : Snake) : Score :=
  let sc := if sc.iframes > 0 then { sc with iframes := sc.iframes - 1 } else sc
  let sc := if sc.hunger = 0 then { sc.Dec with hunger := HungerPeriod }
            else { sc with hunger := sc.hunger - 1 }
  if snake.Collides snake.mouth then sc.Dec else sc

/-- The apple-relocation retry loop of Snake.TryEat, with explicit fuel:
while the apple position collides with the snake's body, move the apple
again; `none` when the fuel runs out before a clear position appears. -/
def relocateLoop (env : Env) (s : Snake) :
    Nat → Apple → Nat → Option (Apple × Nat)
  | fuel, apple, c =>
    if s.Collides apple.pos then
      match fuel with
      | 0 => none
      | fuel + 1 =>
        let mv := Apple.Move env c
        relocateLoop env s fuel mv.1 mv.2
    else some (apple, c)

/-- Snake.TryEat from src/main.go: when the mouth is within
appleRadius + snakeWidth/2 of the apple centre, mark the snake Eating,
relocate the apple (retrying until clear of the snake's body) and add the
reward.  (In Go the threshold constant appleRadius + snakeWidth/2 is the
integer 8, snakeWidth/2 being untyped-integer-constant division.) -/
def Snake.TryEat (env : Env) (fuel : Nat) (c : Nat) (s : Snake)
    (apple : Apple) (score : Score) : Option (Snake × Apple × Score × Nat) :=
  let x := apple.pos.X - s.mouth.X
  let y := apple.pos.Y - s.mouth.Y
  let distance := env.hypot (x : ℚ) (y : ℚ)
  if ((appleRadius + snakeWidth / 2 : Int) : ℚ) < distance then
    some (s, apple, score, c)
  else
    let s := { s with state := State.Eating }
    let mv := Apple.Move env c
    let score := score.Inc
    (relocateLoop env s fuel mv.1 mv.2).map fun ac => (s, ac.1, score, ac.2)

/-- Whole game state: the globals frame, snakes, apple and score of
src/main.go. -/
structure Game where
  frame : Int
  snakes : List Snake
  apple : Apple
  score : Score
deriving DecidableEq, Repr

/-- The body of the per-snake loop of update() in src/main.go: for each
snake in registration order run Snake.Update, Snake.TryEat and
Score.Update, threading apple, score and the GetRandom counter. -/
def stepSnakes (env : Env) (fuel : Nat) (frame : Int) :
    List Snake → Apple → Score → Nat →
    Option (List Snake × Apple × Score × Nat)
  | [], apple, score, c => some ([], apple, score, c)
  | s :: rest, apple, score, c =>
    match Snake.TryEat env fuel (Snake.Update env c frame apple s).2
        (Snake.Update env c frame apple s).1 apple score with
    | none => none
    | some (s2, apple2, score2, c2) =>
      match stepSnakes env fuel frame rest apple2 (score2.Update s2) c2 with
      | none => none
      | some (rest', apple', score', c') =>
        some (s2 :: rest', apple', score', c')

/-- update() from src/main.go: one frame tick — increment the frame counter
and run every snake's update sequentially. -/
def update (env : Env) (fuel : Nat) (g : Game) : Option Game :=
  let frame := g.frame + 1
  match stepSnakes env fuel frame g.snakes g.apple g.score 0 with
  | none => none
  | some (snakes, apple, score, _) =>
    some { frame := frame, snakes := snakes, apple := apple, score := score }

/-- boot() from src/main.go: a fresh apple, one snake per connected peer,
and a fresh score at frame 0. -/
def boot (env : Env) (peers : List Nat) : Game :=
  let mv := Apple.Move env 0
  { frame := 0, snakes := peers.map NewSnake, apple := mv.1, score := NewScore }

/-- A well-behaved environment: the float32 library's cosine and sine stay
within [-1, 1] and Hypot dominates the absolute value of each argument. -/
def GoodEnv (env : Env) : Prop :=
  (∀ q, |env.cos q| ≤ 1) ∧ (∀ q, |env.sin q| ≤ 1) ∧
  (∀ x y, |x| ≤ env.hypot x y ∧ |y| ≤ env.hypot x y)

/-- Reachable game states: the boot state for any environment, closed
under successful frame ticks in well-behaved environments. -/
inductive Reachable (peers : List Nat) : Game → Prop where
  | boot : ∀ env, Reachable peers (Snek.boot env peers)
  | step : ∀ {g g' : Game} (env : Env) (fuel : Nat), GoodEnv env →
      Reachable peers g → update env fuel g = some g' → Reachable peers g'

/-- A point lies strictly outside a bounding box (the complement of the
inclusive containment test). -/
def strictlyOutside (b : BBox) (p : Point) : Prop :=
  p.X < b.left.X ∨ b.right.X < p.X ∨ p.Y < b.left.Y ∨ b.right.Y < p.Y

/-- A point lies exactly on the inclusive boundary of a bounding box. -/
def onBoundary (b : BBox) (p : Point) : Prop :=
  b.Contains p = true ∧
  (p.X = b.left.X ∨ p.X = b.right.X ∨ p.Y = b.left.Y ∨ p.Y = b.right.Y)

/-- The qualifying segment pairs of the collision walk: adjacent pairs of
the chain with the head node dropped. -/
def collPairs (s : Snake) : List (Point × Point) :=
  (s.segments.drop 1).zip (s.segments.drop 1).tail

-- A concrete environment used as a witness input: no pad pressed, the
-- zero random stream, and simple well-behaved stand-ins for the float
-- library.
def envC : Env :=
  { input := fun _ => none
    random := fun _ => 0
    cos := fun _ => 1
    sin := fun _ => 0
    hypot := fun x y => |x| + |y| }

/-- A concrete two-snake game state used to exercise one tick of update(). -/
def stC : Game :=
  { frame := 0
    snakes := [NewSnake 0, NewSnake 1]
    apple := ⟨⟨200, 100⟩⟩
    score := NewScore }

end Snek

namespace Snek

/-! ## Helper lemmas -/

lemma shiftChain_length (h : Point) (l : List Point) :
    (shiftChain h l).length = l.length := by
  induction l generalizing h with
  | nil => rfl
  | cons p rest ih => simp [shiftChain, ih]

lemma shiftChain_eq_cons_dropLast (h : Point) (l : List Point) (hl : l ≠ []) :
    shiftChain h l = h :: l.dropLast := by
  induction l generalizing h with
  | nil => exact absurd rfl hl
  | cons p rest ih =>
    cases rest with
    | nil => simp [shiftChain]
    | cons q rest2 =>
      rw [shiftChain, ih p (by simp), List.dropLast_cons₂]

lemma collidesAux_eq_true_iff (p : Point) :
    ∀ l : List Point, collidesAux p l = true ↔
      ∃ ab ∈ l.zip l.tail, (segBox ab.1 ab.2).Contains p = true
  | [] => by simp [collidesAux]
  | [a] => by simp [collidesAux]
  | a :: b :: rest => by
    rw [collidesAux, Bool.or_eq_true, collidesAux_eq_true_iff p (b :: rest)]
    simp only [List.tail_cons, List.zip_cons_cons, List.mem_cons]
    constructor
    · rintro (h | ⟨ab, hm, hc⟩)
      · exact ⟨(a, b), Or.inl rfl, h⟩
      · exact ⟨ab, Or.inr hm, hc⟩
    · rintro ⟨ab, hm | hm, hc⟩
      · subst hm; exact Or.inl hc
      · exact Or.inr ⟨ab, hm, hc⟩

lemma Collides_eq_true_iff (s : Snake) (p : Point) :
    s.Collides p = true ↔
      ∃ ab ∈ collPairs s, (segBox ab.1 ab.2).Contains p = true := by
  rw [Snake.Collides, collidesAux_eq_true_iff]; rfl

lemma strictlyOutside_iff_not_contains (b : BBox) (p : Point) :
    strictlyOutside b p ↔ b.Contains p = false := by
  simp only [strictlyOutside, BBox.Contains, Bool.not_eq_false', Bool.or_eq_true,
    decide_eq_true_eq, gt_iff_lt]
  omega

end Snek

namespace Snek

/-! ## Claim C6: Score.Dec -/

/-- Claim C6: Score.Dec is a no-op while the invulnerability window is
open; otherwise it restarts the window, reduces a positive value by
floor(value/5) + 1, never drives the value below zero, and in particular
turns value 12 with no invulnerability into value 9 with a fresh window.
(Lean's `/` on Int is floor division; Go's rounds toward zero, but the
subtraction is guarded by `val > 0`, where the two agree.) -/
theorem C6_dec_penalty (s : Score) :
    (0 < s.iframes → s.Dec = s) ∧
    (s.iframes ≤ 0 →
      (s.Dec).iframes = IFrames ∧
      (0 < s.val → (s.Dec).val = s.val - (s.val / 5 + 1)) ∧
      (0 ≤ s.val → 0 ≤ (s.Dec).val)) ∧
    (s.iframes = 0 → s.val = 12 →
      s.Dec = { val := 9, iframes := IFrames, hunger := s.hunger }) := by
  refine ⟨fun h => ?_, fun h => ?_, fun h0 h12 => ?_⟩
  · rw [Score.Dec, if_pos h]
  · rw [Score.Dec, if_neg (by omega)]
    refine ⟨rfl, fun hv => by simp [if_pos hv], fun hv => ?_⟩
    simp only
    split_ifs with hpos
    · omega
    · exact hv
  · rw [Score.Dec, if_neg (by omega)]
    simp [h12]

/-- Witness for C6 at the spec's concrete example: value 12, window
closed. -/
theorem C6_dec_penalty_witness :
    Score.Dec { val := 12, iframes := 0, hunger := 17 } =
      { val := 9, iframes := IFrames, hunger := 17 } :=
  (C6_dec_penalty { val := 12, iframes := 0, hunger := 17 }).2.2 rfl rfl

/-! ## Claim C9: a two-segment snake never collides -/

/-- Claim C9: collision testing skips the head-to-neck segment and needs a
segment with a successor, so a snake whose chain has exactly two segments
(the shape NewSnake creates) reports no collision for any point. -/
theorem C9_minimal_chain_never_collides :
    (∀ (s : Snake) (p : Point), s.segments.length = 2 → s.Collides p = false) ∧
    (∀ (peer : Nat) (p : Point), (NewSnake peer).Collides p = false) := by
  have base : ∀ (s : Snake) (p : Point), s.segments.length = 2 →
      s.Collides p = false := by
    intro s p h
    obtain ⟨a, b, hab⟩ := List.length_eq_two.mp h
    rw [Snake.Collides, hab]
    rfl
  exact ⟨base, fun peer p => base (NewSnake peer) p rfl⟩

/-- Witness for C9: the freshly booted snake of peer 0 and the origin. -/
theorem C9_minimal_chain_never_collides_witness :
    (NewSnake 0).Collides ⟨0, 0⟩ = false :=
  C9_minimal_chain_never_collides.1 (NewSnake 0) ⟨0, 0⟩ (by decide)

/-! ## Claim C5: shift in state Growing -/

/-- Claim C5: a shift of a Growing snake prepends the projected point as
the new head, keeps every previous segment position in order (the old head
becomes segment #2), lengthens the chain by exactly one and moves the
state to Moving. -/
theorem C5_growing_shift (env : Env) (s : Snake) (h : s.state = State.Growing) :
    (s.shift env).segments = projHead env s :: s.segments ∧
    (s.shift env).segments.length = s.segments.length + 1 ∧
    (s.shift env).state = State.Moving := by
  rw [Snake.shift, if_pos h]
  exact ⟨rfl, by simp, rfl⟩

/-- Witness for C5: a concrete Growing snake shifted in the concrete
environment. -/
theorem C5_growing_shift_witness :
    let sG : Snake := { NewSnake 0 with state := State.Growing }
    (sG.shift envC).segments = projHead envC sG :: sG.segments ∧
    (sG.shift envC).segments.length = sG.segments.length + 1 ∧
    (sG.shift envC).state = State.Moving :=
  C5_growing_shift envC { NewSnake 0 with state := State.Growing } rfl

end Snek

namespace Snek

/-! ## Claim C3: normal end-of-cycle shift -/

/-- Counterexample to claim C3 as stated: shifting the fresh Moving snake
of peer 0 (segments [(28,17), (14,17)]) in the concrete environment yields
segments [(42,17), (28,17)] — the chain length is unchanged but the new
position list is not a rotation of the old one (their position sets even
differ: (14,17) is dropped, (42,17) is new). -/
theorem C3_counterexample :
    ¬ (((NewSnake 0).shift envC).segments.length =
          (NewSnake 0).segments.length ∧
       ((NewSnake 0).shift envC).segments.IsRotated
          (NewSnake 0).segments) := by
  rintro ⟨-, hrot⟩
  have hmem := hrot.mem_iff (a := (⟨14, 17⟩ : Point))
  have h1 : ((NewSnake 0).shift envC).segments = [⟨42, 17⟩, ⟨28, 17⟩] := by
    with_unfolding_all decide
  have h2 : (NewSnake 0).segments = [⟨28, 17⟩, ⟨14, 17⟩] := by decide
  rw [h1, h2] at hmem
  simp [Point.mk.injEq] at hmem

/-- Claim C3 (amended): after a normal (state not Growing) end-of-cycle
shift, the chain length is unchanged and the new chain is the projected
head point followed by all previous positions except the last — each
segment takes its predecessor's old position; the tail position is
dropped, so the position set is not in general a rotation of the old
set. -/
theorem C3_normal_shift (env : Env) (s : Snake) (hst : s.state ≠ State.Growing)
    (hne : s.segments ≠ []) :
    (s.shift env).segments.length = s.segments.length ∧
    (s.shift env).segments = projHead env s :: s.segments.dropLast := by
  rw [Snake.shift, if_neg hst]
  exact ⟨shiftChain_length _ _, shiftChain_eq_cons_dropLast _ _ hne⟩

/-- Witness for C3 (amended): the fresh snake of peer 0 shifted in the
concrete environment. -/
theorem C3_normal_shift_witness :
    ((NewSnake 0).shift envC).segments.length =
        (NewSnake 0).segments.length ∧
    ((NewSnake 0).shift envC).segments =
        projHead envC (NewSnake 0) :: (NewSnake 0).segments.dropLast :=
  C3_normal_shift envC (NewSnake 0) (by decide) (by decide)

/-! ## Claim C4: setDir bounds the per-frame turn -/

lemma clamp_delta (dir D : ℚ) :
    ∃ δ : ℚ, |δ| ≤ maxDirDiff ∧
      (if maxDirDiff < D then dir + maxDirDiff
       else if D < -maxDirDiff then dir - maxDirDiff
       else dir + D) = dir + δ := by
  split_ifs with h1 h2
  · refine ⟨maxDirDiff, ?_, rfl⟩
    rw [abs_of_nonneg (by norm_num [maxDirDiff] : (0 : ℚ) ≤ maxDirDiff)]
  · refine ⟨-maxDirDiff, ?_, by ring⟩
    rw [abs_neg, abs_of_nonneg (by norm_num [maxDirDiff] : (0 : ℚ) ≤ maxDirDiff)]
  · exact ⟨D, abs_le.mpr ⟨not_lt.mp h2, not_lt.mp h1⟩, rfl⟩

lemma wrap_shift (d : ℚ) :
    ∃ k : Int, |k| ≤ 1 ∧
      (if Tau < (if d < 0 then d + Tau else d)
       then (if d < 0 then d + Tau else d) - Tau
       else (if d < 0 then d + Tau else d)) = d + (k : ℚ) * Tau := by
  split_ifs with h1 h2 h3
  · exact absurd h2 (not_lt.mpr (by linarith))
  · exact ⟨1, by norm_num, by ring⟩
  · exact ⟨-1, by norm_num, by push_cast; ring⟩
  · exact ⟨0, by norm_num, by ring⟩

/-- Claim C4: one setDir update with any finite target heading moves the
smoothed direction by at most maxDirDiff = 0.1 radians in magnitude, up to
a single ±Tau correction from the final wrap toward [0, 2π), however large
the requested turn is. -/
theorem C4_setDir_bounded_step (s : Snake) (t : ℚ) :
    ∃ k : Int, |k| ≤ 1 ∧
      |(s.setDir (some t)).dir - (k : ℚ) * Tau - s.dir| ≤ maxDirDiff := by
  obtain ⟨δ, hδ, hpre⟩ :=
    clamp_delta s.dir
      (if Pi < t - s.dir then -maxDirDiff
       else if t - s.dir < -Pi then maxDirDiff
       else t - s.dir)
  obtain ⟨k, hk, hw⟩ := wrap_shift (s.dir + δ)
  refine ⟨k, hk, ?_⟩
  have hdir : (s.setDir (some t)).dir = s.dir + δ + (k : ℚ) * Tau := by
    simp only [Snake.setDir]
    simp only [hpre]
    exact hw
  rw [hdir]
  have : s.dir + δ + (k : ℚ) * Tau - (k : ℚ) * Tau - s.dir = δ := by ring
  rw [this]
  exact hδ

end Snek

namespace Snek

/-! ## Claim C8: Collides vs expanded bounding boxes -/

/-- Claim C8: for every snake and point, if the point is strictly outside
the margin-expanded bounding box of every qualifying (non-head-adjacent)
segment pair then Collides returns false, and if it lies exactly on the
inclusive boundary of some qualifying pair's box then Collides returns
true. -/
theorem C8_collides_boundary (s : Snake) (p : Point) :
    ((∀ ab ∈ collPairs s, strictlyOutside (segBox ab.1 ab.2) p) →
      s.Collides p = false) ∧
    ((∃ ab ∈ collPairs s, onBoundary (segBox ab.1 ab.2) p) →
      s.Collides p = true) := by
  constructor
  · intro h
    rw [← Bool.not_eq_true, Collides_eq_true_iff]
    rintro ⟨ab, hm, hc⟩
    rw [(strictlyOutside_iff_not_contains _ _).mp (h ab hm)] at hc
    exact Bool.false_ne_true hc
  · rintro ⟨ab, hm, hc, -⟩
    exact (Collides_eq_true_iff s p).mpr ⟨ab, hm, hc⟩

/-- A three-segment snake used to exercise the collision detector: the
qualifying pair is ((24,10), (38,10)), whose expanded box spans
[21, 41] x [7, 13]. -/
def s3 : Snake :=
  { NewSnake 0 with segments := [⟨10, 10⟩, ⟨24, 10⟩, ⟨38, 10⟩] }

/-- Witness for C8: (100,100) is strictly outside the only qualifying box
of s3 and reports no collision; (21,9) lies exactly on that box's left
boundary and reports a collision. -/
theorem C8_collides_boundary_witness :
    s3.Collides ⟨100, 100⟩ = false ∧ s3.Collides ⟨21, 9⟩ = true := by
  constructor
  · refine (C8_collides_boundary s3 ⟨100, 100⟩).1 ?_
    intro ab hm
    have hcp : collPairs s3 = [(⟨24, 10⟩, ⟨38, 10⟩)] := by decide
    rw [hcp, List.mem_singleton] at hm
    subst hm
    rw [strictlyOutside_iff_not_contains]
    decide
  · refine (C8_collides_boundary s3 ⟨21, 9⟩).2 ⟨(⟨24, 10⟩, ⟨38, 10⟩), ?_, ?_, ?_⟩
    · decide
    · decide
    · decide

/-! ## Claim C7: relocate-until-clear never leaves the apple in the body -/

lemma relocateLoop_clear (env : Env) (s : Snake) :
    ∀ (fuel : Nat) (apple : Apple) (c : Nat) (ac : Apple × Nat),
      relocateLoop env s fuel apple c = some ac →
      s.Collides ac.1.pos = false := by
  intro fuel
  induction fuel with
  | zero =>
    intro apple c ac h
    rw [relocateLoop] at h
    by_cases hc : s.Collides apple.pos
    · rw [if_pos hc] at h; exact absurd h (by simp)
    · rw [if_neg hc] at h
      cases h
      exact Bool.not_eq_true _ |>.mp hc
  | succ n ih =>
    intro apple c ac h
    rw [relocateLoop] at h
    by_cases hc : s.Collides apple.pos
    · rw [if_pos hc] at h
      exact ih _ _ _ h
    · rw [if_neg hc] at h
      cases h
      exact Bool.not_eq_true _ |>.mp hc

/-- Claim C7: whenever an eat is registered (the mouth-to-apple distance is
within the eating threshold) and TryEat returns, the returned apple
position does not collide with the eating snake's body: the relocation
retry loop only terminates on a clear position. -/
theorem C7_tryEat_clear (env : Env) (fuel c : Nat) (s : Snake) (apple : Apple)
    (score : Score) (out : Snake × Apple × Score × Nat)
    (heat : ¬ (((appleRadius + snakeWidth / 2 : Int) : ℚ) <
        env.hypot ((apple.pos.X - s.mouth.X : Int) : ℚ)
                  ((apple.pos.Y - s.mouth.Y : Int) : ℚ)))
    (hsome : Snake.TryEat env fuel c s apple score = some out) :
    out.1.Collides out.2.1.pos = false := by
  rw [Snake.TryEat, if_neg heat] at hsome
  rw [Option.map_eq_some'] at hsome
  obtain ⟨ac, hloop, hout⟩ := hsome
  have := relocateLoop_clear env { s with state := State.Eating } _ _ _ _ hloop
  rw [← hout]
  exact this

/-- Witness for C7: the fresh snake of peer 0 with its mouth on the apple
at the origin; the relocation loop moves the apple to (5,5), which is
clear of the two-segment body. -/
theorem C7_tryEat_clear_witness :
    (({ NewSnake 0 with state := State.Eating } : Snake),
        (⟨⟨5, 5⟩⟩ : Apple), NewScore.Inc, 2).1.Collides ⟨5, 5⟩ = false :=
  C7_tryEat_clear envC 0 0 (NewSnake 0) ⟨⟨0, 0⟩⟩ NewScore
    ({ NewSnake 0 with state := State.Eating }, ⟨⟨5, 5⟩⟩, NewScore.Inc, 2)
    (by with_unfolding_all decide) (by with_unfolding_all decide)

end Snek

namespace Snek

/-! ## Claim C10: boot invulnerability window -/

/-- The operations through which the shared Score is ever mutated: the
per-frame Score.Update (parameterized by the snake whose collision is
checked), the eating reward Score.Inc, and the direct penalty Score.Dec
(reachable through the cheat interface). -/
inductive ScoreOp where
  | update (snake : Snake)
  | inc
  | dec

def applyOp (sc : Score) : ScoreOp → Score
  | ScoreOp.update snake => sc.Update snake
  | ScoreOp.inc => sc.Inc
  | ScoreOp.dec => sc.Dec

def applyOps (sc : Score) : List ScoreOp → Score
  | [] => sc
  | op :: rest => applyOps (applyOp sc op) rest

def countUpdates : List ScoreOp → Nat
  | [] => 0
  | ScoreOp.update _ :: rest => countUpdates rest + 1
  | ScoreOp.inc :: rest => countUpdates rest
  | ScoreOp.dec :: rest => countUpdates rest

def countIncs : List ScoreOp → Nat
  | [] => 0
  | ScoreOp.inc :: rest => countIncs rest + 1
  | ScoreOp.update _ :: rest => countIncs rest
  | ScoreOp.dec :: rest => countIncs rest

lemma scoreUpdate_window (sc : Score) (snake : Snake) (h1 : 1 < sc.iframes)
    (h2 : sc.hunger ≠ 0) :
    sc.Update snake =
      { val := sc.val, iframes := sc.iframes - 1, hunger := sc.hunger - 1 } := by
  have c1 : sc.iframes > 0 := by omega
  simp only [Score.Update, if_pos c1, if_neg h2]
  have hdec : ∀ t : Score, 0 < t.iframes → t.Dec = t := by
    intro t ht; rw [Score.Dec, if_pos ht]
  by_cases hcol : snake.Collides snake.mouth
  · rw [if_pos hcol, hdec _ (by simp; omega)]
  · rw [if_neg hcol]

lemma applyOps_boot_window :
    ∀ (ops : List ScoreOp) (sc : Score) (k : Nat),
      k + countUpdates ops ≤ 59 →
      sc.iframes = IFrames - (k : Int) →
      HungerPeriod - (k : Int) ≤ sc.hunger →
      (applyOps sc ops).iframes = IFrames - (k : Int) - (countUpdates ops : Int) ∧
      (applyOps sc ops).val = sc.val + (countIncs ops : Int) := by
  intro ops
  induction ops with
  | nil =>
    intro sc k hk hif hh
    simp [applyOps, countUpdates, countIncs, hif]
  | cons op rest ih =>
    intro sc k hk hif hh
    cases op with
    | update snake =>
      have hcu : countUpdates (ScoreOp.update snake :: rest) =
          countUpdates rest + 1 := rfl
      rw [hcu] at hk
      have hstep := scoreUpdate_window sc snake
        (by rw [hif]; simp only [IFrames]; omega)
        (by simp only [HungerPeriod] at hh; omega)
      have hrec := ih (sc.Update snake) (k + 1)
        (by omega)
        (by rw [hstep]; simp [hif]; ring)
        (by rw [hstep]; simp only [HungerPeriod] at hh ⊢; push_cast; simp; omega)
      rw [applyOps, applyOp] at *
      refine ⟨?_, ?_⟩
      · rw [hrec.1, hcu]; push_cast; ring
      · rw [hrec.2, hstep]
        simp [countIncs]
    | inc =>
      have hrec := ih sc.Inc k
        (by simpa [countUpdates] using hk)
        (by simp [Score.Inc, hif])
        (by simp only [Score.Inc, HungerPeriod] at *; omega)
      rw [applyOps, applyOp]
      refine ⟨by simpa [countUpdates] using hrec.1, ?_⟩
      rw [hrec.2]
      simp only [Score.Inc, countIncs]
      push_cast
      ring
    | dec =>
      have hnoop : sc.Dec = sc := by
        rw [Score.Dec, if_pos (by rw [hif]; simp only [IFrames]; omega)]
      rw [applyOps, applyOp, hnoop]
      have hrec := ih sc k (by simpa [countUpdates] using hk) hif hh
      exact ⟨by simpa [countUpdates] using hrec.1,
             by simpa [countIncs] using hrec.2⟩

/-- The snake used in the C10 counterexample: a three-segment body lying
on a horizontal line with the mouth inside the qualifying segment's box,
so Snake.Collides(mouth) holds and Score.Update applies a penalty. -/
def collSnake : Snake :=
  { NewSnake 0 with segments := [⟨50, 50⟩, ⟨60, 50⟩, ⟨70, 50⟩]
                    mouth := ⟨60, 50⟩ }

/-- Fifty-nine benign frames (a non-colliding snake) preceded by one eaten
apple. -/
def benignOps : List ScoreOp :=
  ScoreOp.inc :: List.replicate 59 (ScoreOp.update (NewSnake 0))

set_option maxRecDepth 8000 in
/-- Counterexample to claim C10 as stated: the 60th frame after boot is
still within "the first 60 frames", yet its Score.Update, finding a
self-collision, applies a penalty that changes the value from 1 to 0 —
the boot invulnerability window has already expired during that very
frame (NewScore's counter 60 is decremented to 0 by the 60th update,
before the penalty is processed). -/
theorem C10_counterexample :
    (applyOps NewScore benignOps).val = 1 ∧
    countUpdates (benignOps ++ [ScoreOp.update collSnake]) = 60 ∧
    (applyOps NewScore (benignOps ++ [ScoreOp.update collSnake])).val = 0 := by
  refine ⟨?_, ?_, ?_⟩ <;> decide

/-- Claim C10 (amended): NewScore initializes the invulnerability counter
to the full window (IFrames = 60), so every penalty (Score.Dec) that
occurs while fewer than 60 Score.Update calls have happened since boot —
in particular any penalty in the first 59 frames — leaves the score value
unchanged: the value equals the number of Score.Inc rewards alone, and the
counter still reads 60 minus the number of updates.  (At the 60th frame
the counter reaches 0 and a penalty in that same frame can already change
the value.) -/
theorem C10_boot_invulnerability (ops : List ScoreOp)
    (h : countUpdates ops ≤ 59) :
    (applyOps NewScore ops).iframes = IFrames - (countUpdates ops : Int) ∧
    (applyOps NewScore ops).val = (countIncs ops : Int) := by
  have hmain := applyOps_boot_window ops NewScore 0 (by omega)
    (by simp [NewScore]) (by simp [NewScore])
  simpa [NewScore] using hmain

/-- Witness for C10 (amended): a single direct penalty right after boot is
absorbed by the window. -/
theorem C10_boot_invulnerability_witness :
    (applyOps NewScore [ScoreOp.dec]).iframes =
        IFrames - (countUpdates [ScoreOp.dec] : Int) ∧
    (applyOps NewScore [ScoreOp.dec]).val = (countIncs [ScoreOp.dec] : Int) :=
  C10_boot_invulnerability [ScoreOp.dec] (by decide)

end Snek

namespace Snek

/-! ## Claim C1: score advance per tick -/

/-- The snake of peer 0 after one Snake.Update in the concrete
environment at frame 1: mouth interpolated one pixel ahead, eye pulled
toward the apple. -/
def snakeA : Snake :=
  { peer := 0
    segments := [⟨28, 17⟩, ⟨14, 17⟩]
    mouth := ⟨29, 17⟩
    eye := ⟨31, 17⟩
    blinkCounter := 0
    blinkMaxTime := 0
    dir := 0
    state := State.Moving }

/-- The snake of peer 1 after one Snake.Update in the concrete
environment at frame 1. -/
def snakeB : Snake :=
  { peer := 1
    segments := [⟨28, 37⟩, ⟨14, 37⟩]
    mouth := ⟨29, 37⟩
    eye := ⟨31, 37⟩
    blinkCounter := 0
    blinkMaxTime := 0
    dir := 0
    state := State.Moving }

/-- Counterexample to claim C1 as stated: one tick of update() on a fresh
two-snake game advances the shared Score twice, not once — the
invulnerability counter drops from 60 to 58 and the hunger counter from
360 to 358, because update() calls score.Update(snake) once for every
registered snake inside the per-snake loop. -/
theorem C1_counterexample :
    (update envC 0 stC).map (fun g => g.score) =
      some { val := 0, iframes := 58, hunger := 358 } ∧
    ¬ ((update envC 0 stC).map (fun g => g.score.iframes) =
        some (stC.score.iframes - 1)) := by
  constructor
  · with_unfolding_all decide
  · with_unfolding_all decide

/-- One per-snake advance of the shared score inside a tick: the snake's
eating reward (Score.Inc, when that snake ate this frame) followed by
exactly one Score.Update against that snake.  `ScoreAdvances sc n sc'`
holds when sc' arises from sc by exactly n such advances in sequence. -/
inductive ScoreAdvances : Score → Nat → Score → Prop where
  | refl (sc : Score) : ScoreAdvances sc 0 sc
  | step (sc : Score) (snake : Snake) (ate : Bool) (n : Nat) (sc' : Score) :
      ScoreAdvances (Score.Update (if ate then sc.Inc else sc) snake) n sc' →
      ScoreAdvances sc (n + 1) sc'

lemma tryEat_score (env : Env) (fuel c : Nat) (s : Snake) (ap : Apple)
    (sc : Score) (out : Snake × Apple × Score × Nat)
    (h : Snake.TryEat env fuel c s ap sc = some out) :
    out.2.2.1 = sc ∨ out.2.2.1 = sc.Inc := by
  rw [Snake.TryEat] at h
  split_ifs at h with hd
  · cases h
    exact Or.inl rfl
  · rw [Option.map_eq_some'] at h
    obtain ⟨ac, hloop, rfl⟩ := h
    exact Or.inr rfl

lemma stepSnakes_advances (env : Env) (fuel : Nat) (frame : Int) :
    ∀ (snakes : List Snake) (ap : Apple) (sc : Score) (c : Nat)
      (out : List Snake × Apple × Score × Nat),
      stepSnakes env fuel frame snakes ap sc c = some out →
      ScoreAdvances sc snakes.length out.2.2.1 := by
  intro snakes
  induction snakes with
  | nil =>
    intro ap sc c out h
    rw [stepSnakes] at h
    cases h
    exact ScoreAdvances.refl sc
  | cons s rest ih =>
    intro ap sc c out h
    rw [stepSnakes] at h
    cases hte : Snake.TryEat env fuel (Snake.Update env c frame ap s).2
        (Snake.Update env c frame ap s).1 ap sc with
    | none => simp only [hte] at h; cases h
    | some q =>
      simp only [hte] at h
      obtain ⟨s2, ap2, sc2, c2⟩ := q
      cases hrec : stepSnakes env fuel frame rest ap2 (Score.Update sc2 s2) c2 with
      | none => simp only [hrec] at h; cases h
      | some out2 =>
        simp only [hrec] at h
        cases h
        have hadv := ih ap2 (Score.Update sc2 s2) c2 out2 hrec
        rcases tryEat_score env fuel _ _ ap sc (s2, ap2, sc2, c2) hte with h1 | h1
        · rw [show sc2 = sc from h1] at hadv
          exact ScoreAdvances.step sc s2 false rest.length _ hadv
        · rw [show sc2 = sc.Inc from h1] at hadv
          exact ScoreAdvances.step sc s2 true rest.length _ hadv

lemma scoreDec_hunger (t : Score) : (t.Dec).hunger = t.hunger := by
  rw [Score.Dec]
  split_ifs <;> rfl

lemma scoreDec_iframes (t : Score) :
    (t.Dec).iframes = if t.iframes > 0 then t.iframes else IFrames := by
  rw [Score.Dec]
  split_ifs <;> rfl

lemma scoreUpdate_hunger (sc : Score) (snake : Snake) :
    (sc.Update snake).hunger =
      (if sc.hunger = 0 then HungerPeriod else sc.hunger - 1) := by
  simp only [Score.Update]
  by_cases h1 : sc.iframes > 0 <;>
    by_cases h2 : sc.hunger = 0 <;>
    by_cases h3 : snake.Collides snake.mouth <;>
    simp [h1, h2, h3, scoreDec_hunger]

lemma scoreUpdate_iframes (sc : Score) (snake : Snake) :
    (sc.Update snake).iframes =
      (if (sc.hunger = 0 ∨ snake.Collides snake.mouth = true) ∧
          ¬ ((if sc.iframes > 0 then sc.iframes - 1 else sc.iframes) > 0)
       then IFrames
       else (if sc.iframes > 0 then sc.iframes - 1 else sc.iframes)) := by
  simp only [Score.Update]
  by_cases h1 : sc.iframes > 0 <;>
    by_cases h2 : sc.hunger = 0 <;>
    by_cases h3 : snake.Collides snake.mouth <;>
    by_cases h4 : (if sc.iframes > 0 then sc.iframes - 1 else sc.iframes) > 0 <;>
    simp [h1, h2, h3, h4, scoreDec_iframes] <;>
    simp only [IFrames] at * <;> omega

/-- Claim C1 (amended): every frame tick (any invocation of update(), in
any environment and from any game state) advances the shared Score
exactly once per registered snake, in registration order: the final score
arises from the initial one by exactly one reward-then-Score.Update
advance per snake (first conjunct), and each such Score.Update decrements
the hunger counter or resets it at zero, and decrements the invulnerability
counter (floor 0) — except that a penalty (hunger tick or self-collision)
landing when that counter has already reached 0 restarts it at the full
window (second conjunct, an unconditional characterization).  With n
snakes the counters therefore advance n times per tick, not once. -/
theorem C1_score_once_per_snake :
    (∀ (env : Env) (fuel : Nat) (g g' : Game),
        update env fuel g = some g' →
        ScoreAdvances g.score g.snakes.length g'.score) ∧
    (∀ (sc : Score) (snake : Snake),
        (sc.Update snake).hunger =
          (if sc.hunger = 0 then HungerPeriod else sc.hunger - 1) ∧
        (sc.Update snake).iframes =
          (if (sc.hunger = 0 ∨ snake.Collides snake.mouth = true) ∧
              ¬ ((if sc.iframes > 0 then sc.iframes - 1 else sc.iframes) > 0)
           then IFrames
           else (if sc.iframes > 0 then sc.iframes - 1 else sc.iframes))) := by
  constructor
  · intro env fuel g g' h
    rw [update] at h
    cases hs : stepSnakes env fuel (g.frame + 1) g.snakes g.apple g.score 0 with
    | none => rw [hs] at h; cases h
    | some out =>
      rw [hs] at h
      obtain ⟨snakes', ap', sc', c'⟩ := out
      cases h
      exact stepSnakes_advances env fuel (g.frame + 1) g.snakes g.apple g.score 0
        (snakes', ap', sc', c') hs
  · intro sc snake
    exact ⟨scoreUpdate_hunger sc snake, scoreUpdate_iframes sc snake⟩

/-- The game state one tick of update() produces from the concrete
two-snake boot state stC in the concrete environment. -/
def gC : Game :=
  { frame := 1
    snakes := [snakeA, snakeB]
    apple := ⟨⟨200, 100⟩⟩
    score := { val := 0, iframes := 58, hunger := 358 } }

/-- Witness for C1 (amended): the concrete two-snake tick advances the
boot score twice — once per snake. -/
theorem C1_score_once_per_snake_witness :
    ScoreAdvances stC.score stC.snakes.length gC.score :=
  C1_score_once_per_snake.1 envC 0 stC gC (by with_unfolding_all decide)

end Snek

namespace Snek

/-! ## Claim C2: all stored coordinates stay on screen -/

/-- A stored coordinate pair lies on the screen: in [0,W) x [0,H). -/
def inb (p : Point) : Prop :=
  0 ≤ p.X ∧ p.X < Width ∧ 0 ≤ p.Y ∧ p.Y < Height

/-- The apple keeps an appleRadius margin from every edge (guaranteed by
Apple.Move's modulus and offset). -/
def appleMargin (a : Apple) : Prop :=
  appleRadius ≤ a.pos.X ∧ a.pos.X < Width - appleRadius ∧
  appleRadius ≤ a.pos.Y ∧ a.pos.Y < Height - appleRadius

/-- Every coordinate stored in a snake is on screen. -/
def SnakeInb (s : Snake) : Prop :=
  (∀ p ∈ s.segments, inb p) ∧ inb s.mouth ∧ inb s.eye

/-- The inductive invariant: all snake coordinates on screen and the apple
inside its margin. -/
def Inv (g : Game) : Prop :=
  (∀ s ∈ g.snakes, SnakeInb s) ∧ appleMargin g.apple

lemma normalizeX_inb (x : Int) (h1 : -Width ≤ x) (h2 : x < 2 * Width) :
    0 ≤ normalizeX x ∧ normalizeX x < Width := by
  simp only [normalizeX, Width] at *
  split_ifs <;> omega

lemma normalizeY_inb (y : Int) (h1 : -Height ≤ y) (h2 : y < 2 * Height) :
    0 ≤ normalizeY y ∧ normalizeY y < Height := by
  simp only [normalizeY, Height] at *
  split_ifs <;> omega

lemma truncQ_bound (q : ℚ) (n : Int) (hn : 0 ≤ n) (h : |q| ≤ (n : ℚ)) :
    -n ≤ truncQ q ∧ truncQ q ≤ n := by
  rw [abs_le] at h
  unfold truncQ
  split_ifs with h0
  · refine ⟨?_, ?_⟩
    · have : (0 : Int) ≤ ⌊q⌋ := Int.floor_nonneg.mpr h0
      omega
    · calc ⌊q⌋ ≤ ⌊(n : ℚ)⌋ := Int.floor_le_floor h.2
        _ = n := Int.floor_intCast n
  · push_neg at h0
    refine ⟨?_, ?_⟩
    · calc -n = ⌈((-n : Int) : ℚ)⌉ := by rw [Int.ceil_intCast]
        _ ≤ ⌈q⌉ := Int.ceil_le_ceil (by push_cast; linarith [h.1])
    · have : ⌈q⌉ ≤ ⌈(0 : ℚ)⌉ := Int.ceil_le_ceil h0.le
      simp at this
      omega

lemma truncQ_nonneg (q : ℚ) (h : 0 ≤ q) : 0 ≤ truncQ q := by
  unfold truncQ
  rw [if_pos h]
  exact Int.floor_nonneg.mpr h

lemma truncQ_nonpos (q : ℚ) (h : q ≤ 0) : truncQ q ≤ 0 := by
  unfold truncQ
  split_ifs with h0
  · have h00 : q = 0 := le_antisymm h h0
    simp [h00]
  · have : ⌈q⌉ ≤ ⌈(0 : ℚ)⌉ := Int.ceil_le_ceil h
    simpa using this

lemma proj_bound (c : ℚ) (hc : |c| ≤ 1) (l : ℚ)
    (hl : |l| ≤ (segmentLen : ℚ)) :
    -segmentLen ≤ truncQ (c * l) ∧ truncQ (c * l) ≤ segmentLen := by
  apply truncQ_bound _ _ (by norm_num [segmentLen])
  calc |c * l| = |c| * |l| := abs_mul c l
    _ ≤ 1 * (segmentLen : ℚ) := mul_le_mul hc hl (abs_nonneg l) zero_le_one
    _ = (segmentLen : ℚ) := one_mul _

lemma headPos_inb (s : Snake) (h : ∀ p ∈ s.segments, inb p) :
    inb s.headPos := by
  rcases hs : s.segments with _ | ⟨a, rest⟩
  · rw [Snake.headPos, hs]
    show inb (⟨0, 0⟩ : Point)
    exact ⟨le_refl 0, by norm_num [Width], le_refl 0, by norm_num [Height]⟩
  · rw [Snake.headPos, hs]
    exact h a (by rw [hs]; exact List.mem_cons_self a rest)

lemma projHead_inb (env : Env) (henv : GoodEnv env) (s : Snake)
    (h : ∀ p ∈ s.segments, inb p) : inb (projHead env s) := by
  obtain ⟨hcos, hsin, -⟩ := henv
  obtain ⟨hx0, hx1, hy0, hy1⟩ := headPos_inb s h
  have hsl : |(segmentLen : ℚ)| ≤ (segmentLen : ℚ) := by
    rw [abs_of_nonneg (by norm_num [segmentLen] : (0 : ℚ) ≤ (segmentLen : ℚ))]
  have hbx := proj_bound (env.cos s.dir) (hcos _) _ hsl
  have hby := proj_bound (env.sin s.dir) (hsin _) _ hsl
  simp only [segmentLen] at hbx hby
  simp only [Width, Height, segmentLen] at hx1 hy1
  obtain ⟨h1, h2⟩ := normalizeX_inb (s.headPos.X + truncQ (env.cos s.dir * (segmentLen : ℚ)))
    (by simp only [Width, segmentLen]; omega) (by simp only [Width, segmentLen]; omega)
  obtain ⟨h3, h4⟩ := normalizeY_inb (s.headPos.Y - truncQ (env.sin s.dir * (segmentLen : ℚ)))
    (by simp only [Height, segmentLen]; omega) (by simp only [Height, segmentLen]; omega)
  exact ⟨h1, h2, h3, h4⟩

lemma shiftChain_subset :
    ∀ (l : List Point) (h : Point) (p : Point),
      p ∈ shiftChain h l → p = h ∨ p ∈ l
  | [], h, p => by simp [shiftChain]
  | a :: rest, h, p => by
    intro hp
    rw [shiftChain, List.mem_cons] at hp
    rcases hp with hp | hp
    · exact Or.inl hp
    · rcases shiftChain_subset rest a p hp with hp' | hp'
      · exact Or.inr (hp' ▸ List.mem_cons_self a rest)
      · exact Or.inr (List.mem_cons_of_mem a hp')

lemma shift_inb (env : Env) (henv : GoodEnv env) (s : Snake)
    (h : ∀ p ∈ s.segments, inb p) :
    ∀ p ∈ (s.shift env).segments, inb p := by
  have hph := projHead_inb env henv s h
  rw [Snake.shift]
  split_ifs with hst hst2
  · intro p hp
    rcases List.mem_cons.mp hp with rfl | hp'
    · exact hph
    · exact h p hp'
  all_goals
    intro p hp
    rcases shiftChain_subset _ _ _ hp with rfl | hp'
  all_goals first | exact hph | exact h p hp'

lemma shift_fields (env : Env) (s : Snake) :
    (s.shift env).mouth = s.mouth ∧ (s.shift env).eye = s.eye := by
  rw [Snake.shift]
  split_ifs <;> exact ⟨rfl, rfl⟩

end Snek

namespace Snek

lemma updateMouth_inb (env : Env) (henv : GoodEnv env) (f : Int) (s : Snake)
    (hf0 : 0 ≤ f) (hf9 : f ≤ 9) (h : ∀ p ∈ s.segments, inb p) :
    inb (s.updateMouth env f).mouth ∧
    (s.updateMouth env f).segments = s.segments ∧
    (s.updateMouth env f).dir = s.dir := by
  obtain ⟨hcos, hsin, -⟩ := henv
  obtain ⟨hx0, hx1, hy0, hy1⟩ := headPos_inb s h
  have hf0Q : (0 : ℚ) ≤ (f : ℚ) := by exact_mod_cast hf0
  have hf9Q : (f : ℚ) ≤ 9 := by exact_mod_cast hf9
  have hhl : |(segmentLen : ℚ) * (f : ℚ) / (period : ℚ)| ≤ (segmentLen : ℚ) := by
    rw [abs_of_nonneg (div_nonneg
      (mul_nonneg (by norm_num [segmentLen]) hf0Q) (by norm_num [period]))]
    simp only [segmentLen, period]
    rw [div_le_iff₀ (by norm_num)]
    push_cast
    linarith
  have hbx := proj_bound (env.cos s.dir) (hcos _) _ hhl
  have hby := proj_bound (env.sin s.dir) (hsin _) _ hhl
  simp only [segmentLen] at hbx hby
  simp only [Width] at hx1
  simp only [Height] at hy1
  obtain ⟨a1, a2⟩ := normalizeX_inb
    (s.headPos.X + truncQ (env.cos s.dir * ((segmentLen : ℚ) * (f : ℚ) / (period : ℚ))))
    (by simp only [Width, segmentLen]; omega)
    (by simp only [Width, segmentLen]; omega)
  obtain ⟨b1, b2⟩ := normalizeY_inb
    (s.headPos.Y - truncQ (env.sin s.dir * ((segmentLen : ℚ) * (f : ℚ) / (period : ℚ))))
    (by simp only [Height, segmentLen]; omega)
    (by simp only [Height, segmentLen]; omega)
  exact ⟨⟨a1, a2, b1, b2⟩, rfl, rfl⟩

lemma eye_axis (B m a : Int) (len : ℚ)
    (hm0 : 0 ≤ m) (hm1 : m < B)
    (ha0 : appleRadius ≤ a) (ha1 : a < B - appleRadius)
    (hlen : |((a - m : Int) : ℚ)| ≤ len) :
    0 ≤ m + truncQ (((a - m : Int) : ℚ) * 3 / len) ∧
    m + truncQ (((a - m : Int) : ℚ) * 3 / len) < B := by
  set lq : ℚ := ((a - m : Int) : ℚ) with hlq
  have hlen0 : (0 : ℚ) ≤ len := le_trans (abs_nonneg lq) hlen
  have habs : |lq * 3 / len| ≤ 3 := by
    rcases eq_or_lt_of_le hlen0 with hz | hpos
    · have h0 : lq = 0 :=
        abs_eq_zero.mp (le_antisymm (hz ▸ hlen) (abs_nonneg lq))
      simp [h0]
    · rw [abs_div, abs_mul, abs_of_pos hpos, div_le_iff₀ hpos]
      have h3 : |(3 : ℚ)| = 3 := by norm_num
      rw [h3]
      nlinarith [hlen]
  have htr := truncQ_bound _ 3 (by norm_num) habs
  simp only [appleRadius] at ha0 ha1
  rcases le_or_lt m a with hma | hma
  · have hlq0 : (0 : ℚ) ≤ lq := by
      rw [hlq]
      exact_mod_cast Int.sub_nonneg.mpr hma
    have ht0 : 0 ≤ truncQ (lq * 3 / len) :=
      truncQ_nonneg _ (div_nonneg (mul_nonneg hlq0 (by norm_num)) hlen0)
    exact ⟨by omega, by omega⟩
  · have hlq0 : lq ≤ 0 := by
      rw [hlq]
      exact_mod_cast sub_nonpos.mpr hma.le
    have hmul : lq * 3 ≤ 0 := mul_nonpos_iff.mpr (Or.inr ⟨hlq0, by norm_num⟩)
    have ht0 : truncQ (lq * 3 / len) ≤ 0 :=
      truncQ_nonpos _ (div_nonpos_iff.mpr (Or.inr ⟨hmul, hlen0⟩))
    exact ⟨by omega, by omega⟩

lemma updateEye_inb (env : Env) (henv : GoodEnv env) (c : Nat) (ap : Point)
    (s : Snake) (hm : inb s.mouth)
    (hax0 : appleRadius ≤ ap.X) (hax1 : ap.X < Width - appleRadius)
    (hay0 : appleRadius ≤ ap.Y) (hay1 : ap.Y < Height - appleRadius) :
    inb (s.updateEye env c ap).1.eye ∧
    (s.updateEye env c ap).1.segments = s.segments ∧
    (s.updateEye env c ap).1.mouth = s.mouth := by
  obtain ⟨-, -, hhyp⟩ := henv
  obtain ⟨hm0, hm1, hm2, hm3⟩ := hm
  have hX := eye_axis Width s.mouth.X ap.X
    (env.hypot ((ap.X - s.mouth.X : Int) : ℚ) ((ap.Y - s.mouth.Y : Int) : ℚ))
    hm0 hm1 hax0 hax1 (hhyp _ _).1
  have hY := eye_axis Height s.mouth.Y ap.Y
    (env.hypot ((ap.X - s.mouth.X : Int) : ℚ) ((ap.Y - s.mouth.Y : Int) : ℚ))
    hm2 hm3 hay0 hay1 (hhyp _ _).2
  simp only [Snake.updateEye]
  split_ifs with hb
  · exact ⟨⟨hX.1, hX.2, hY.1, hY.2⟩, rfl, rfl⟩
  · exact ⟨⟨hX.1, hX.2, hY.1, hY.2⟩, rfl, rfl⟩

end Snek

namespace Snek

lemma setDir_fields (s : Snake) (t : Option ℚ) :
    (s.setDir t).segments = s.segments ∧ (s.setDir t).mouth = s.mouth ∧
    (s.setDir t).eye = s.eye := by
  cases t <;> exact ⟨rfl, rfl, rfl⟩

lemma snakeUpdate_inb (env : Env) (henv : GoodEnv env) (c : Nat) (frame : Int)
    (ap : Apple) (s : Snake)
    (hseg : ∀ p ∈ s.segments, inb p) (hm : appleMargin ap) :
    SnakeInb (Snake.Update env c frame ap s).1 := by
  obtain ⟨hax0, hax1, hay0, hay1⟩ := hm
  simp only [Snake.Update]
  set s1 := (match env.input s.peer with
             | some t => s.setDir t
             | none => s) with hs1
  have hseg1 : ∀ p ∈ s1.segments, inb p := by
    rw [hs1]
    cases env.input s.peer with
    | none => exact hseg
    | some t => rw [(setDir_fields s t).1]; exact hseg
  set s2 := if frame % period = 0 then s1.shift env else s1 with hs2
  have hseg2 : ∀ p ∈ s2.segments, inb p := by
    rw [hs2]
    split_ifs with h
    · exact shift_inb env henv s1 hseg1
    · exact hseg1
  have hf0 : 0 ≤ frame % period := Int.emod_nonneg frame (by norm_num [period])
  have hf9 : frame % period ≤ 9 := by
    have := Int.emod_lt_of_pos frame (show (0 : Int) < period by norm_num [period])
    simp only [period] at this ⊢
    omega
  obtain ⟨hmouth3, hsegeq3, -⟩ :=
    updateMouth_inb env henv (frame % period) s2 hf0 hf9 hseg2
  obtain ⟨heye4, hsegeq4, hmouth4⟩ :=
    updateEye_inb env henv c ap.pos (s2.updateMouth env (frame % period))
      hmouth3 hax0 hax1 hay0 hay1
  refine ⟨?_, ?_, heye4⟩
  · rw [hsegeq4, hsegeq3]
    exact hseg2
  · rw [hmouth4]
    exact hmouth3

lemma appleMove_margin (env : Env) (c : Nat) :
    appleMargin (Apple.Move env c).1 := by
  have e1 : (((240 : Int) - 5 * 2).toNat) = 230 := by decide
  have e2 : (((160 : Int) - 5 * 2).toNat) = 150 := by decide
  have hx := Nat.mod_lt (env.random c) (show 0 < 230 by norm_num)
  have hy := Nat.mod_lt (env.random (c + 1)) (show 0 < 150 by norm_num)
  simp only [Apple.Move, appleMargin, Width, Height, appleRadius, e1, e2]
  omega

lemma relocateLoop_margin (env : Env) (s : Snake) :
    ∀ (fuel : Nat) (ap : Apple) (c : Nat) (ac : Apple × Nat),
      appleMargin ap → relocateLoop env s fuel ap c = some ac →
      appleMargin ac.1 := by
  intro fuel
  induction fuel with
  | zero =>
    intro ap c ac hm h
    rw [relocateLoop] at h
    by_cases hc : s.Collides ap.pos
    · rw [if_pos hc] at h
      exact absurd h (by simp)
    · rw [if_neg hc] at h
      cases h
      exact hm
  | succ n ih =>
    intro ap c ac hm h
    rw [relocateLoop] at h
    by_cases hc : s.Collides ap.pos
    · rw [if_pos hc] at h
      exact ih _ _ _ (appleMove_margin env c) h
    · rw [if_neg hc] at h
      cases h
      exact hm

lemma tryEat_inv (env : Env) (fuel c : Nat) (s : Snake) (ap : Apple)
    (sc : Score) (out : Snake × Apple × Score × Nat) (hm : appleMargin ap)
    (h : Snake.TryEat env fuel c s ap sc = some out) :
    out.1.segments = s.segments ∧ out.1.mouth = s.mouth ∧
    out.1.eye = s.eye ∧ appleMargin out.2.1 := by
  rw [Snake.TryEat] at h
  split_ifs at h with hd
  · cases h
    exact ⟨rfl, rfl, rfl, hm⟩
  · rw [Option.map_eq_some'] at h
    obtain ⟨ac, hloop, rfl⟩ := h
    exact ⟨rfl, rfl, rfl,
      relocateLoop_margin env _ fuel _ _ ac (appleMove_margin env c) hloop⟩

lemma stepSnakes_inv (env : Env) (henv : GoodEnv env) (fuel : Nat)
    (frame : Int) :
    ∀ (snakes : List Snake) (ap : Apple) (sc : Score) (c : Nat)
      (out : List Snake × Apple × Score × Nat),
      (∀ s ∈ snakes, ∀ p ∈ s.segments, inb p) →
      appleMargin ap →
      stepSnakes env fuel frame snakes ap sc c = some out →
      (∀ s ∈ out.1, SnakeInb s) ∧ appleMargin out.2.1 := by
  intro snakes
  induction snakes with
  | nil =>
    intro ap sc c out h hm hstep
    rw [stepSnakes] at hstep
    cases hstep
    exact ⟨by simp, hm⟩
  | cons s rest ih =>
    intro ap sc c out h hm hstep
    rw [stepSnakes] at hstep
    cases hte : Snake.TryEat env fuel (Snake.Update env c frame ap s).2
        (Snake.Update env c frame ap s).1 ap sc with
    | none => simp only [hte] at hstep; cases hstep
    | some q =>
      simp only [hte] at hstep
      obtain ⟨s', ap', sc', c'⟩ := q
      have hup := snakeUpdate_inb env henv c frame ap s
        (h s (List.mem_cons_self s rest)) hm
      have hfields := tryEat_inv env fuel _ _ ap sc (s', ap', sc', c') hm hte
      have hs' : SnakeInb s' := by
        obtain ⟨e1, e2, e3, -⟩ := hfields
        exact ⟨e1 ▸ hup.1, e2 ▸ hup.2.1, e3 ▸ hup.2.2⟩
      cases hrec : stepSnakes env fuel frame rest ap' (Score.Update sc' s') c' with
      | none => simp only [hrec] at hstep; cases hstep
      | some out2 =>
        simp only [hrec] at hstep
        cases hstep
        have hrest := ih ap' (Score.Update sc' s') c' out2
          (fun t ht => h t (List.mem_cons_of_mem s ht)) hfields.2.2.2 hrec
        refine ⟨?_, hrest.2⟩
        intro t ht
        rcases List.mem_cons.mp ht with rfl | ht'
        · exact hs'
        · exact hrest.1 t ht'

lemma update_inv (env : Env) (henv : GoodEnv env) (fuel : Nat) (g g' : Game)
    (hg : Inv g) (h : update env fuel g = some g') : Inv g' := by
  rw [update] at h
  cases hs : stepSnakes env fuel (g.frame + 1) g.snakes g.apple g.score 0 with
  | none => rw [hs] at h; simp at h
  | some out =>
    rw [hs] at h
    obtain ⟨snakes', ap', sc', c'⟩ := out
    cases h
    have := stepSnakes_inv env henv fuel (g.frame + 1) g.snakes g.apple g.score 0
      (snakes', ap', sc', c') (fun s hs' => (hg.1 s hs').1) hg.2 hs
    exact ⟨this.1, this.2⟩

lemma boot_inv (env : Env) (peers : List Nat) (hp : ∀ p ∈ peers, p ≤ 7) :
    Inv (boot env peers) := by
  constructor
  · intro s hs
    simp only [boot, List.mem_map] at hs
    obtain ⟨p, hpin, rfl⟩ := hs
    have hp7 : (p : Int) ≤ 7 := by exact_mod_cast hp p hpin
    have hp0 : (0 : Int) ≤ (p : Int) := Int.natCast_nonneg p
    refine ⟨?_, ?_, ?_⟩
    · intro q hq
      simp only [NewSnake, List.mem_cons, List.not_mem_nil, or_false] at hq
      rcases hq with rfl | rfl <;>
        exact ⟨by norm_num [segmentLen], by simp only [Width, segmentLen]; omega,
          by simp only [snakeWidth]; omega,
          by simp only [Height, snakeWidth]; omega⟩
    · exact ⟨le_refl 0, by norm_num [NewSnake, Width],
        le_refl 0, by norm_num [NewSnake, Height]⟩
    · exact ⟨le_refl 0, by norm_num [NewSnake, Width],
        le_refl 0, by norm_num [NewSnake, Height]⟩
  · exact appleMove_margin env 0

/-- Claim C2: in every reachable game state (boot followed by any number of
successful ticks in well-behaved environments, with the connected peers
drawn from the ids 0..7 the 160-pixel screen can seat), every stored
coordinate — each segment position, each snake's mouth and eye, and the
apple position — lies within [0, Width) x [0, Height). -/
theorem C2_coords_in_range (peers : List Nat) (g : Game)
    (hp : ∀ p ∈ peers, p ≤ 7) (hr : Reachable peers g) :
    (∀ s ∈ g.snakes, (∀ p ∈ s.segments, inb p) ∧ inb s.mouth ∧ inb s.eye) ∧
    inb g.apple.pos := by
  have hinv : Inv g := by
    induction hr with
    | boot env => exact boot_inv env peers hp
    | step env fuel henv hr hupd ih => exact update_inv env henv fuel _ _ ih hupd
  refine ⟨fun s hs => hinv.1 s hs, ?_⟩
  obtain ⟨a1, a2, a3, a4⟩ := hinv.2
  simp only [appleRadius] at a1 a2 a3 a4
  exact ⟨by omega, by simp only [Width] at a2 ⊢; omega,
    by omega, by simp only [Height] at a4 ⊢; omega⟩

/-- Witness for C2: the boot state of a single peer in the concrete
environment. -/
theorem C2_coords_in_range_witness :
    (∀ s ∈ (boot envC [0]).snakes,
      (∀ p ∈ s.segments, inb p) ∧ inb s.mouth ∧ inb s.eye) ∧
    inb (boot envC [0]).apple.pos :=
  C2_coords_in_range [0] (boot envC [0]) (by decide) (Reachable.boot envC)

end Snek
